import Mathlib

/-!
Verification of the `opzioni` typed-configuration library (`src/lib.rs`,
`src/manager.rs`) against its specification.

Shallow embedding conventions:
* A file path is modelled by its final component (the file name) as a list of
  raw bytes (`OsBytes`), matching Unix `OsStr` semantics.  All paths in the
  claims are bare file names, so the directory part is elided; the model
  assumes the final component is a normal file name (not `.` or `..`).
* `OsStr::to_str` is modelled by a full UTF-8 decoder over the byte list.
* Stateful methods are translated to explicit state passing: the file system
  is a value of type `FS`, reads return the file's text or an I/O error
  message, and writes produce an updated `FS` (or an I/O error message).
* A Rust `panic!`/`unwrap` failure is a distinct `Outcome.panics` result.
* The payload type `T` of the Rust generics stays a type parameter with an
  `Inhabited` instance standing for `Default`; the serde codecs, which live in
  external crates, are passed in as decode/encode parameters.
-/

/-- Bytes of an `OsStr` (the file name, on Unix an arbitrary byte string). -/
abbrev OsBytes := List Nat

/-- Is `b` a UTF-8 continuation byte (`0x80 ..= 0xBF`)? -/
def isCont (b : Nat) : Bool := 0x80 ≤ b && b ≤ 0xBF

/-- Allowed range of the second byte of a 3-byte sequence, given the lead
byte: `0xE0` requires `0xA0..=0xBF`, `0xED` requires `0x80..=0x9F` (excluding
surrogates), all other leads require a plain continuation byte. -/
def isCont3 (b1 b2 : Nat) : Bool :=
  if b1 = 0xE0 then 0xA0 ≤ b2 && b2 ≤ 0xBF
  else if b1 = 0xED then 0x80 ≤ b2 && b2 ≤ 0x9F
  else isCont b2

/-- Allowed range of the second byte of a 4-byte sequence, given the lead
byte: `0xF0` requires `0x90..=0xBF`, `0xF4` requires `0x80..=0x8F` (capping at
`U+10FFFF`), all other leads require a plain continuation byte. -/
def isCont4 (b1 b2 : Nat) : Bool :=
  if b1 = 0xF0 then 0x90 ≤ b2 && b2 ≤ 0xBF
  else if b1 = 0xF4 then 0x80 ≤ b2 && b2 ≤ 0x8F
  else isCont b2

/-- Strict UTF-8 decoding of a byte list, the semantics of `OsStr::to_str`:
`none` exactly when the bytes are not valid UTF-8. -/
def utf8Decode : List Nat → Option (List Char)
  | [] => some []
  | b1 :: l =>
    if b1 < 0x80 then
      (utf8Decode l).map (fun cs => Char.ofNat b1 :: cs)
    else if 0xC2 ≤ b1 && b1 ≤ 0xDF then
      match l with
      | b2 :: l2 =>
        if isCont b2 then
          (utf8Decode l2).map (fun cs =>
            Char.ofNat ((b1 - 0xC0) * 0x40 + (b2 - 0x80)) :: cs)
        else none
      | [] => none
    else if 0xE0 ≤ b1 && b1 ≤ 0xEF then
      match l with
      | b2 :: b3 :: l3 =>
        if isCont3 b1 b2 && isCont b3 then
          (utf8Decode l3).map (fun cs =>
            Char.ofNat ((b1 - 0xE0) * 0x1000 + (b2 - 0x80) * 0x40 + (b3 - 0x80)) :: cs)
        else none
      | _ => none
    else if 0xF0 ≤ b1 && b1 ≤ 0xF4 then
      match l with
      | b2 :: b3 :: b4 :: l4 =>
        if isCont4 b1 b2 && isCont b3 && isCont b4 then
          (utf8Decode l4).map (fun cs =>
            Char.ofNat ((b1 - 0xF0) * 0x40000 + (b2 - 0x80) * 0x1000 +
              (b3 - 0x80) * 0x40 + (b4 - 0x80)) :: cs)
        else none
      | _ => none
    else none

/-- `OsStr::to_str`: the bytes as a `String` when they are valid UTF-8. -/
def osToStr (l : OsBytes) : Option String :=
  (utf8Decode l).map List.asString

/-- ASCII bytes of a Lean string, for writing concrete file names. -/
def asciiBytes (s : String) : OsBytes := s.data.map Char.toNat

/-- `Path::extension` on the file name: the part after the last `.` (byte 46),
or `none` when there is no `.`, or when the only `.` is the leading byte
(hidden files like `.json` have no extension). -/
def extension (name : OsBytes) : Option OsBytes :=
  let afterRev := name.reverse.takeWhile (fun b => b != 46)
  match name.reverse.dropWhile (fun b => b != 46) with
  | [] => none
  | _ :: beforeRev => if beforeRev.isEmpty then none else some afterRev.reverse

/-- The `Error` enum of `src/lib.rs`. -/
inductive Error where
  | ConfigLoadError (msg : Option String)
  | UnknownFileExtension (msg : Option String)
  | SerializationError (msg : Option String)
deriving DecidableEq, Repr

/-- The three compiled-in codecs (`JsonLoader`, `TomlLoader`, `YamlLoader`);
trait-object dispatch is modelled as this closed set of tags. -/
inductive Codec where
  | json
  | toml
  | yaml
deriving DecidableEq, Repr

/-- Result of a Rust computation that may return, error, or panic. -/
inductive Outcome (α : Type) where
  | ok (a : α)
  | err (e : Error)
  | panics
deriving DecidableEq, Repr

/-- Lift an `Except Error` result (no panic possible) into `Outcome`. -/
def Outcome.ofExcept : Except Error α → Outcome α
  | .ok a => .ok a
  | .error e => .err e

/-- `manager::for_file` (`src/manager.rs:5-23`): dispatch on the path's
extension.  The wildcard arm of the Rust `match` runs
`ext.to_str().unwrap()`, which panics when `to_str` returned `None`
(extension present but not valid UTF-8). -/
def for_file (path : OsBytes) : Outcome Codec :=
  match extension path with
  | some ext =>
    match osToStr ext with
    | some "json" => .ok .json
    | some "toml" => .ok .toml
    | some "yaml" => .ok .yaml
    | some "yml" => .ok .yaml
    | _ =>
      match osToStr ext with
      | some s => .err (.UnknownFileExtension (some s))
      | none => .panics
  | none => .err (.UnknownFileExtension none)


/-- The file system state: `read` is `std::fs::read_to_string` (the file's
text, or the `io::Error` message), `wfail` gives the `io::Error` message when
`std::fs::write` to that path fails. -/
structure FS where
  read : OsBytes → Except String (List Char)
  wfail : OsBytes → Option String

/-- `std::fs::write`: on success the updated file system, otherwise the
`io::Error` message. -/
def fsWrite (fs : FS) (p : OsBytes) (data : List Char) : Except String FS :=
  match fs.wfail p with
  | some m => .error m
  | none => .ok { fs with read := fun q => if q = p then .ok data else fs.read q }

/-- A file system with no files: every read fails with this I/O message and
every write succeeds. -/
def fsEmpty : FS :=
  { read := fun _ => .error "No such file or directory", wfail := fun _ => none }

/-- A file system on which every read and every write fails with the same
I/O error message. -/
def fsBroken : FS :=
  { read := fun _ => .error "disk full", wfail := fun _ => some "disk full" }

/-- `ConfigManager::load` for each loader (`src/manager.rs`): read the file as
text, then decode.  Both the `?` on `read_to_string` and the `?` on the serde
decode go through `From<_> for Error`, yielding
`SerializationError(Some(msg))`.  `dec` is the external serde decoder of the
chosen format for the payload type. -/
def ConfigManager.load (dec : Codec → List Char → Except String T)
    (c : Codec) (fs : FS) (p : OsBytes) : Except Error T :=
  match fs.read p with
  | .error ioe => .error (.SerializationError (some ioe))
  | .ok data =>
    match dec c data with
    | .error m => .error (.SerializationError (some m))
    | .ok v => .ok v

/-- `ConfigManager::save` for each loader (`src/manager.rs`): encode, then
write; both failure paths become `SerializationError(Some(msg))`. -/
def ConfigManager.save (enc : Codec → T → Except String (List Char))
    (c : Codec) (fs : FS) (p : OsBytes) (v : T) : Except Error FS :=
  match enc c v with
  | .error m => .error (.SerializationError (some m))
  | .ok data =>
    match fsWrite fs p data with
    | .error ioe => .error (.SerializationError (some ioe))
    | .ok fs2 => .ok fs2

/-- The `Config` struct (`src/lib.rs:84-90`): the value behind the lock and
the optional origin path.  The lock is modelled away: the embedding is the
sequential semantics of one lock-holder. -/
structure Config (T : Type) where
  config : T
  path : Option OsBytes
deriving DecidableEq, Repr

/-- `Config::empty` (`src/lib.rs:113-120`): default value, no path. -/
def Config.empty [Inhabited T] : Config T := { config := default, path := none }

/-- `Config::get` (`src/lib.rs:142-144`): access to the locked value. -/
def Config.get (cfg : Config T) : T := cfg.config

/-- `Config::save` (`src/lib.rs:192-201`, and the tokio variant at
`src/lib.rs:230-242`, which clones the value under the read lock before the
same synchronous write — both translate to this pure function).  Methods on
`&self` return the handle unchanged alongside the result and the updated file
system. -/
def Config.save (enc : Codec → T → Except String (List Char))
    (cfg : Config T) (fs : FS) : Config T × Outcome Unit × FS :=
  match cfg.path with
  | some p =>
    match for_file p with
    | .ok c =>
      match ConfigManager.save enc c fs p cfg.config with
      | .ok fs2 => (cfg, .ok (), fs2)
      | .error e => (cfg, .err e, fs)
    | .err e => (cfg, .err e, fs)
    | .panics => (cfg, .panics, fs)
  | none => (cfg, .err (.ConfigLoadError none), fs)

/-- The `ConfigBuilder` struct (`src/lib.rs:246-248`). -/
structure ConfigBuilder where
  use_default_on_error : Bool
deriving DecidableEq, Repr

/-- `Config::configure` (`src/lib.rs:162-166`). -/
def Config.configure : ConfigBuilder := { use_default_on_error := false }

/-- `ConfigBuilder::use_default_on_error` (`src/lib.rs:295-298`); named
`useDefaultOnError` here because the field keeps the source name. -/
def ConfigBuilder.useDefaultOnError (_ : ConfigBuilder) : ConfigBuilder :=
  { use_default_on_error := true }

/-- `ConfigBuilder::handle_load_err` (`src/lib.rs:251-267`): propagate the
error unless the flag is set, in which case produce a default-valued handle
remembering the given path. -/
def ConfigBuilder.handle_load_err [Inhabited T] (b : ConfigBuilder) (e : Error)
    (p : OsBytes) : Except Error (Config T) :=
  if !b.use_default_on_error then .error e
  else .ok { config := default, path := some p }

/-- `ConfigBuilder::load` (`src/lib.rs:319-333`): resolve the codec, load,
wrap the value and path; on either failure defer to `handle_load_err`. -/
def ConfigBuilder.load [Inhabited T] (dec : Codec → List Char → Except String T)
    (b : ConfigBuilder) (p : OsBytes) (fs : FS) : Outcome (Config T) :=
  match for_file p with
  | .ok c =>
    match ConfigManager.load dec c fs p with
    | .ok v => .ok { config := v, path := some p }
    | .error e => Outcome.ofExcept (b.handle_load_err e p)
  | .err e => Outcome.ofExcept (b.handle_load_err e p)
  | .panics => .panics

/-- The load pipeline failed with error `e`: either the resolver rejected the
extension, or the chosen loader's read/decode failed. -/
def loadFails (dec : Codec → List Char → Except String T)
    (p : OsBytes) (fs : FS) (e : Error) : Prop :=
  for_file p = .err e ∨
    ∃ c, for_file p = .ok c ∧ ConfigManager.load dec c fs p = .error e

/-- Modelled from the spec: a representative payload type (the codecs
themselves — serde_json, toml, serde_yaml — are external crates, outside
`src/`; the spec treats them as opaque encode/decode pairs with a round-trip
contract).  One numeric field, as in the spec's `age: u8` examples. -/
structure MyConfig where
  value : Nat
deriving DecidableEq, Repr

instance : Inhabited MyConfig := ⟨⟨0⟩⟩

/-- Decimal digit character back to its value, `none` on a non-digit. -/
def charToDigit (c : Char) : Option Nat :=
  if 48 ≤ c.toNat && c.toNat ≤ 57 then some (c.toNat - 48) else none

/-- Parse every character as a decimal digit. -/
def parseDigits : List Char → Option (List Nat)
  | [] => some []
  | c :: cs =>
    match charToDigit c, parseDigits cs with
    | some d, some ds => some (d :: ds)
    | _, _ => none

/-- Little-endian decimal digit characters of `n`, with explicit fuel so the
definition is structural and evaluates inside the kernel. -/
def natCharsAux : Nat → Nat → List Char
  | 0, _ => []
  | fuel + 1, n => if n = 0 then [] else Nat.digitChar (n % 10) :: natCharsAux fuel (n / 10)

/-- Big-endian decimal rendering of a natural number (empty for `0`). -/
def natChars (n : Nat) : List Char :=
  (natCharsAux n n).reverse

/-- Parse a big-endian decimal rendering: digits, reversed to little-endian,
then assembled. -/
def parseNat (s : List Char) : Option Nat :=
  (parseDigits s.reverse).map (Nat.ofDigits 10)

/-- Remove an exact leading run of characters, or fail. -/
def stripPre : List Char → List Char → Option (List Char)
  | [], s => some s
  | _ :: _, [] => none
  | a :: as, c :: cs => if a = c then stripPre as cs else none

/-- Remove an exact trailing run of characters, or fail. -/
def stripSuf (suf s : List Char) : Option (List Char) :=
  (stripPre suf.reverse s.reverse).map List.reverse

/-- Modelled from the spec: the text each codec emits before the value. -/
def codecPre : Codec → List Char
  | .json => "\x7b \"value\": ".data
  | .toml => "value = ".data
  | .yaml => "value: ".data

/-- Modelled from the spec: the text each codec emits after the value. -/
def codecSuf : Codec → List Char
  | .json => " \x7d".data
  | .toml => "\n".data
  | .yaml => "\n".data

/-- Modelled from the spec: `encode(value) -> String` of the codec chosen by
the Format Resolver — deterministic, human-readable text framing the payload
field. -/
def cfgEncode (c : Codec) (v : MyConfig) : List Char :=
  codecPre c ++ natChars v.value ++ codecSuf c

/-- Modelled from the spec: `decode(text) -> Result<T, Error>` of the chosen
codec — fails with a parser message on malformed input. -/
def cfgDecode (c : Codec) (s : List Char) : Except String MyConfig :=
  match stripPre (codecPre c) s with
  | none => .error "unexpected framing"
  | some t =>
    match stripSuf (codecSuf c) t with
    | none => .error "unexpected framing"
    | some u =>
      match parseNat u with
      | none => .error "invalid number"
      | some n => .ok { value := n }

/-- The serde decoder argument used at concrete instantiations. -/
def myDec : Codec → List Char → Except String MyConfig := cfgDecode

/-- The serde encoder argument used at concrete instantiations (the model's
encoders never fail). -/
def myEnc (c : Codec) (v : MyConfig) : Except String (List Char) :=
  .ok (cfgEncode c v)


lemma natCharsAux_eq : ∀ (fuel n : Nat), n ≤ fuel →
    natCharsAux fuel n = (Nat.digits 10 n).map Nat.digitChar := by
  intro fuel
  induction fuel with
  | zero =>
    intro n hn
    interval_cases n
    simp [natCharsAux]
  | succ f ih =>
    intro n hn
    by_cases h0 : n = 0
    · subst h0; simp [natCharsAux]
    · have hpos : 0 < n := Nat.pos_of_ne_zero h0
      have hdiv : n / 10 ≤ f := by
        have := Nat.div_lt_self hpos (by norm_num : 1 < 10)
        omega
      rw [natCharsAux, if_neg h0, ih _ hdiv, Nat.digits_def' (by norm_num : 1 < 10) hpos,
        List.map_cons]

lemma charToDigit_digitChar {d : Nat} (hd : d < 10) :
    charToDigit (Nat.digitChar d) = some d := by
  interval_cases d <;> rfl

lemma parseDigits_map : ∀ (ds : List Nat), (∀ d ∈ ds, d < 10) →
    parseDigits (ds.map Nat.digitChar) = some ds := by
  intro ds
  induction ds with
  | nil => intro _; rfl
  | cons d rest ih =>
    intro h
    have hd : d < 10 := h d (List.mem_cons_self d rest)
    have hrest := ih (fun x hx => h x (List.mem_cons_of_mem d hx))
    simp only [List.map_cons, parseDigits, charToDigit_digitChar hd, hrest]

lemma parseNat_natChars (n : Nat) : parseNat (natChars n) = some n := by
  have hds : ∀ d ∈ Nat.digits 10 n, d < 10 := fun d hd =>
    Nat.digits_lt_base (by norm_num) hd
  rw [parseNat, natChars, natCharsAux_eq n n le_rfl, List.reverse_reverse,
    parseDigits_map _ hds]
  simp [Nat.ofDigits_digits]

lemma stripPre_append : ∀ (p s : List Char), stripPre p (p ++ s) = some s := by
  intro p
  induction p with
  | nil => intro s; rfl
  | cons a as ih => intro s; simp [stripPre, ih]

lemma stripSuf_append (suf x : List Char) : stripSuf suf (x ++ suf) = some x := by
  rw [stripSuf, List.reverse_append, stripPre_append]
  simp

lemma splitAtDot : ∀ (l r : List Nat), (∀ b ∈ l, b ≠ 46) →
    (l ++ 46 :: r).takeWhile (fun b => b != 46) = l ∧
      (l ++ 46 :: r).dropWhile (fun b => b != 46) = 46 :: r := by
  intro l
  induction l with
  | nil => intro r _; simp [List.takeWhile, List.dropWhile]
  | cons a as ih =>
    intro r h
    have ha : (a != 46) = true := by
      simpa using h a (List.mem_cons_self a as)
    have ⟨ht, hd⟩ := ih r (fun x hx => h x (List.mem_cons_of_mem a hx))
    constructor
    · simp [List.takeWhile, ha, ht]
    · simp [List.dropWhile, ha, hd]

lemma extension_append {stem ext : List Nat} (hs : stem ≠ []) (he : 46 ∉ ext) :
    extension (stem ++ 46 :: ext) = some ext := by
  have hmem : ∀ b ∈ ext.reverse, b ≠ 46 := fun b hb hbe =>
    he (hbe ▸ List.mem_reverse.mp hb)
  have hrev : (stem ++ 46 :: ext).reverse = ext.reverse ++ 46 :: stem.reverse := by
    simp
  obtain ⟨ht, hd⟩ := splitAtDot ext.reverse stem.reverse hmem
  cases hsr : stem.reverse with
  | nil => exact absurd (by simpa using congrArg List.reverse hsr) hs
  | cons b bs =>
    rw [hsr] at ht hd
    simp only [extension, hrev, hsr, ht, hd]
    simp

lemma for_file_err_shape {p : OsBytes} {e : Error} (h : for_file p = .err e) :
    ∃ m, e = .UnknownFileExtension m := by
  unfold for_file at h
  split at h
  · split at h
    · exact absurd h (by simp)
    · exact absurd h (by simp)
    · exact absurd h (by simp)
    · exact absurd h (by simp)
    · split at h
      · exact ⟨_, (Outcome.err.inj h).symm⟩
      · exact absurd h (by simp)
  · exact ⟨none, (Outcome.err.inj h).symm⟩

lemma manager_save_err_shape {enc : Codec → T → Except String (List Char)}
    {c : Codec} {fs : FS} {p : OsBytes} {v : T} {e : Error}
    (h : ConfigManager.save enc c fs p v = .error e) :
    ∃ m, e = .SerializationError (some m) := by
  unfold ConfigManager.save at h
  split at h
  · exact ⟨_, (Except.error.inj h).symm⟩
  · split at h
    · exact ⟨_, (Except.error.inj h).symm⟩
    · exact absurd h (by simp)

lemma manager_save_writes_only {T : Type} {enc : Codec → T → Except String (List Char)}
    {c : Codec} {fs fs2 : FS} {p : OsBytes} {v : T}
    (h : ConfigManager.save enc c fs p v = .ok fs2) :
    (∀ q, q ≠ p → fs2.read q = fs.read q) ∧ fs2.wfail = fs.wfail := by
  unfold ConfigManager.save fsWrite at h
  cases henc : enc c v with
  | error m => simp [henc] at h
  | ok data =>
    cases hw : fs.wfail p with
    | some m => simp [henc, hw] at h
    | none =>
      simp only [henc, hw] at h
      obtain rfl := Except.ok.inj h
      refine ⟨fun q hq => ?_, rfl⟩
      simp [if_neg hq]

lemma handle_err_ok_shape {T : Type} [Inhabited T] {b : ConfigBuilder}
    {e : Error} {p : OsBytes} {cfg : Config T}
    (h : Outcome.ofExcept (b.handle_load_err e p) = .ok cfg) :
    cfg = { config := default, path := some p } := by
  unfold ConfigBuilder.handle_load_err at h
  cases hb : b.use_default_on_error
  · rw [hb] at h
    exact Outcome.noConfusion h
  · rw [hb] at h
    injection h with h2
    exact h2.symm

/-- C1: Format dispatch by extension: for every path, `for_file` selects the
JSON codec when the extension is `json`, the TOML codec when it is `toml`,
the YAML codec when it is `yaml` or `yml`; `cfg.ini` fails with
`UnknownFileExtension` carrying `"ini"`, and `cfg` (no extension) fails with
`UnknownFileExtension` carrying no detail. -/
theorem for_file_dispatch (p bs : OsBytes) :
    (extension p = some bs → osToStr bs = some "json" → for_file p = .ok .json) ∧
    (extension p = some bs → osToStr bs = some "toml" → for_file p = .ok .toml) ∧
    (extension p = some bs → osToStr bs = some "yaml" → for_file p = .ok .yaml) ∧
    (extension p = some bs → osToStr bs = some "yml" → for_file p = .ok .yaml) ∧
    for_file (asciiBytes "cfg.ini") = .err (.UnknownFileExtension (some "ini")) ∧
    for_file (asciiBytes "cfg") = .err (.UnknownFileExtension none) := by
  refine ⟨?_, ?_, ?_, ?_, by decide, by decide⟩ <;>
    · intro h1 h2
      simp only [for_file, h1, h2]
      try decide

/-- C1 witness: the dispatch theorem applied to the concrete path `a.json`. -/
theorem for_file_dispatch_witness : for_file (asciiBytes "a.json") = .ok .json :=
  (for_file_dispatch (asciiBytes "a.json") (asciiBytes "json")).1 (by decide) (by decide)

/-- C10: only the final dot-separated extension is consulted: appending
`.ext` to a nonempty stem yields extension `ext`, `cfg.backup.json` selects
the JSON codec, and the hidden-file name `.json` has no extension, failing
with `UnknownFileExtension` carrying no detail. -/
theorem extension_last_component (stem ext : OsBytes) (hs : stem ≠ [])
    (he : 46 ∉ ext) :
    extension (stem ++ 46 :: ext) = some ext ∧
    for_file (asciiBytes "cfg.backup.json") = .ok .json ∧
    for_file (asciiBytes ".json") = .err (.UnknownFileExtension none) :=
  ⟨extension_append hs he, by decide, by decide⟩

/-- C10 witness: the theorem applied to stem `cfg.backup` and extension
`json` (note the stem itself contains a dot). -/
theorem extension_last_component_witness :
    extension (asciiBytes "cfg.backup" ++ 46 :: asciiBytes "json") =
      some (asciiBytes "json") ∧
    for_file (asciiBytes "cfg.backup.json") = .ok .json ∧
    for_file (asciiBytes ".json") = .err (.UnknownFileExtension none) :=
  extension_last_component (asciiBytes "cfg.backup") (asciiBytes "json")
    (by decide) (by decide)

/-- C7 (code bug): on the path `cfg.` followed by byte `0xFF`, the extension
is present (`[0xFF]`) but not valid UTF-8, and `for_file` panics — the
wildcard arm of the Rust `match` calls `ext.to_str().unwrap()` on a `None` —
instead of returning `UnknownFileExtension` as the claim states. -/
theorem for_file_panics_on_invalid_utf8 :
    extension (asciiBytes "cfg." ++ [0xFF]) = some [0xFF] ∧
    osToStr [0xFF] = none ∧
    for_file (asciiBytes "cfg." ++ [0xFF]) = .panics := by
  refine ⟨by decide, by decide, by decide⟩

/-- C5: round-trip: for every supported format (JSON, TOML, YAML) and every
value of the payload type, decoding the text produced by encoding the value
yields the value back. -/
theorem codec_round_trip (c : Codec) (v : MyConfig) :
    cfgDecode c (cfgEncode c v) = .ok v := by
  obtain ⟨n⟩ := v
  simp only [cfgDecode, cfgEncode, List.append_assoc, stripPre_append,
    stripSuf_append, parseNat_natChars]

/-- C2: default-on-error recovery: for every path and every load failure
(unsupported extension, I/O failure, or decode failure), a builder on which
`use_default_on_error` was set returns `Ok` with the payload default as value
and the same given path as origin. -/
theorem load_default_on_error_recovers {T : Type} [Inhabited T]
    (dec : Codec → List Char → Except String T) (p : OsBytes) (fs : FS)
    (e : Error) (h : loadFails dec p fs e) :
    (Config.configure.useDefaultOnError).load dec p fs =
      .ok { config := default, path := some p } := by
  rcases h with hf | ⟨c, hc, hl⟩
  · simp only [ConfigBuilder.load, hf, ConfigBuilder.handle_load_err,
      Config.configure, ConfigBuilder.useDefaultOnError, Outcome.ofExcept,
      Bool.not_true, Bool.false_eq_true, if_false]
  · simp only [ConfigBuilder.load, hc, hl, ConfigBuilder.handle_load_err,
      Config.configure, ConfigBuilder.useDefaultOnError, Outcome.ofExcept,
      Bool.not_true, Bool.false_eq_true, if_false]

/-- C2 witness: loading the extensionless path `cfg` from an empty file
system with recovery enabled yields the default-valued handle carrying the
same path. -/
theorem load_default_on_error_recovers_witness :
    (Config.configure.useDefaultOnError).load myDec (asciiBytes "cfg") fsEmpty =
      .ok { config := (default : MyConfig), path := some (asciiBytes "cfg") } :=
  load_default_on_error_recovers myDec (asciiBytes "cfg") fsEmpty
    (.UnknownFileExtension none) (Or.inl (by decide))

/-- C3: no-recovery propagation: for every path and every load failure, a
builder without `use_default_on_error` returns exactly the error produced by
the resolver or the codec/I-O layer. -/
theorem load_propagates_error {T : Type} [Inhabited T]
    (dec : Codec → List Char → Except String T) (p : OsBytes) (fs : FS)
    (e : Error) (h : loadFails dec p fs e) :
    Config.configure.load dec p fs = .err e := by
  rcases h with hf | ⟨c, hc, hl⟩
  · simp only [ConfigBuilder.load, hf, ConfigBuilder.handle_load_err,
      Config.configure, Outcome.ofExcept, Bool.not_false, if_true]
  · simp only [ConfigBuilder.load, hc, hl, ConfigBuilder.handle_load_err,
      Config.configure, Outcome.ofExcept, Bool.not_false, if_true]

/-- C3 witness: loading a missing `cfg.json` without recovery propagates the
I/O failure as `SerializationError` with the I/O message. -/
theorem load_propagates_error_witness :
    Config.configure.load myDec (asciiBytes "cfg.json") fsEmpty =
      .err (.SerializationError (some "No such file or directory")) :=
  load_propagates_error myDec (asciiBytes "cfg.json") fsEmpty
    (.SerializationError (some "No such file or directory"))
    (Or.inr ⟨.json, by decide, by rfl⟩)

/-- C4: save without origin path: for every handle whose origin path is
`none` — in particular one produced by `Config::empty` — `save` returns
`ConfigLoadError` carrying no message, leaves the handle unchanged and
touches no file. -/
theorem save_without_origin_fails {T : Type} [Inhabited T]
    (enc : Codec → T → Except String (List Char)) (cfg : Config T) (fs : FS)
    (h : cfg.path = none) :
    Config.save enc cfg fs = (cfg, .err (.ConfigLoadError none), fs) ∧
      (Config.empty : Config T).path = none := by
  refine ⟨?_, rfl⟩
  simp only [Config.save, h]

/-- C4 witness: saving the handle produced by `Config::empty` fails with
`ConfigLoadError` carrying no message. -/
theorem save_without_origin_fails_witness :
    Config.save myEnc (Config.empty : Config MyConfig) fsEmpty =
      (Config.empty, .err (.ConfigLoadError none), fsEmpty) ∧
      (Config.empty : Config MyConfig).path = none :=
  save_without_origin_fails myEnc Config.empty fsEmpty rfl

/-- C6: I/O errors surface as serialization errors: a failing read makes the
loader fail with `SerializationError` carrying the I/O message; a failing
write does the same on save; and loading a nonexistent file through a
recognized extension without recovery yields that `SerializationError` (so
never `ConfigLoadError` or `UnknownFileExtension`). -/
theorem io_error_becomes_serialization_error {T : Type} [Inhabited T]
    (dec : Codec → List Char → Except String T)
    (enc : Codec → T → Except String (List Char)) (c : Codec) (p : OsBytes)
    (fs : FS) (m : String) (v : T) (data : List Char) :
    (fs.read p = .error m →
      ConfigManager.load dec c fs p = .error (.SerializationError (some m))) ∧
    (fs.wfail p = some m → enc c v = .ok data →
      ConfigManager.save enc c fs p v = .error (.SerializationError (some m))) ∧
    (for_file p = .ok c → fs.read p = .error m →
      Config.configure.load dec p fs = .err (.SerializationError (some m))) := by
  refine ⟨fun hr => ?_, fun hw he => ?_, fun hc hr => ?_⟩
  · simp only [ConfigManager.load, hr]
  · simp only [ConfigManager.save, he, fsWrite, hw]
  · have hl : ConfigManager.load dec c fs p =
        .error (.SerializationError (some m)) := by
      simp only [ConfigManager.load, hr]
    simp only [ConfigBuilder.load, hc, hl, ConfigBuilder.handle_load_err,
      Config.configure, Outcome.ofExcept, Bool.not_false, if_true]

/-- C6 witness: on a file system whose reads and writes all fail with
`disk full`, loading and saving `cfg.json` both surface
`SerializationError (some "disk full")`. -/
theorem io_error_becomes_serialization_error_witness :
    ConfigManager.load myDec .json fsBroken (asciiBytes "cfg.json") =
      .error (.SerializationError (some "disk full")) ∧
    ConfigManager.save myEnc .json fsBroken (asciiBytes "cfg.json") default =
      .error (.SerializationError (some "disk full")) ∧
    Config.configure.load myDec (asciiBytes "cfg.json") fsBroken =
      .err (.SerializationError (some "disk full")) := by
  obtain ⟨h1, h2, h3⟩ := io_error_becomes_serialization_error myDec myEnc
    .json (asciiBytes "cfg.json") fsBroken "disk full" default
    (cfgEncode .json default)
  exact ⟨h1 rfl, h2 rfl rfl, h3 (by decide) rfl⟩

/-- C8: save is read-only on the in-memory state: for every handle with an
origin path, `save` (blocking and cooperative variants translate to the same
pure function) returns the handle unchanged, and the file system is unchanged
at every path other than the origin path. -/
theorem save_frame {T : Type} (enc : Codec → T → Except String (List Char))
    (cfg : Config T) (fs : FS) (p : OsBytes) (h : cfg.path = some p) :
    (Config.save enc cfg fs).1 = cfg ∧
      ∀ q, q ≠ p →
        ((Config.save enc cfg fs).2.2).read q = fs.read q ∧
        ((Config.save enc cfg fs).2.2).wfail q = fs.wfail q := by
  obtain ⟨cv, cp⟩ := cfg
  obtain rfl : cp = some p := h
  simp only [Config.save]
  cases hf : for_file p with
  | ok c =>
    simp only []
    cases hs : ConfigManager.save enc c fs p cv with
    | ok fs2 =>
      obtain ⟨hr, hw⟩ := manager_save_writes_only hs
      exact ⟨rfl, fun q hq => ⟨hr q hq, by rw [hw]⟩⟩
    | error e => exact ⟨rfl, fun q _ => ⟨rfl, rfl⟩⟩
  | err e => exact ⟨rfl, fun q _ => ⟨rfl, rfl⟩⟩
  | panics => exact ⟨rfl, fun q _ => ⟨rfl, rfl⟩⟩

/-- C8 witness: saving a JSON-pathed handle on the empty file system leaves
the handle unchanged and does not touch the unrelated path `other.toml`. -/
theorem save_frame_witness :
    (Config.save myEnc
        { config := (default : MyConfig), path := some (asciiBytes "cfg.json") }
        fsEmpty).1 =
      { config := (default : MyConfig), path := some (asciiBytes "cfg.json") } ∧
    ((Config.save myEnc
        { config := (default : MyConfig), path := some (asciiBytes "cfg.json") }
        fsEmpty).2.2).read (asciiBytes "other.toml") =
      fsEmpty.read (asciiBytes "other.toml") ∧
    ((Config.save myEnc
        { config := (default : MyConfig), path := some (asciiBytes "cfg.json") }
        fsEmpty).2.2).wfail (asciiBytes "other.toml") =
      fsEmpty.wfail (asciiBytes "other.toml") := by
  obtain ⟨h1, h2⟩ := save_frame myEnc
    { config := (default : MyConfig), path := some (asciiBytes "cfg.json") }
    fsEmpty (asciiBytes "cfg.json") rfl
  obtain ⟨hr, hw⟩ := h2 (asciiBytes "other.toml") (by decide)
  exact ⟨h1, hr, hw⟩

/-- C9: origin-path invariant of the builder: every handle that
`ConfigBuilder::load` returns with `Ok` — decode success or default-on-error
recovery — has the given path as origin, and therefore `save` on it can never
fail with the no-destination `ConfigLoadError` carrying no message. -/
theorem load_origin_invariant {T : Type} [Inhabited T]
    (dec : Codec → List Char → Except String T) (b : ConfigBuilder)
    (p : OsBytes) (fs : FS) (cfg : Config T)
    (h : b.load dec p fs = .ok cfg) :
    cfg.path = some p ∧
      ∀ (enc : Codec → T → Except String (List Char)) (fs2 : FS),
        (Config.save enc cfg fs2).2.1 ≠ .err (.ConfigLoadError none) := by
  obtain ⟨cv, cp⟩ := cfg
  have hpath : cp = some p := by
    unfold ConfigBuilder.load at h
    cases hf : for_file p with
    | ok c =>
      simp only [hf] at h
      cases hl : ConfigManager.load dec c fs p with
      | ok v =>
        simp only [hl] at h
        injection h with h2
        exact congrArg Config.path h2.symm
      | error e =>
        simp only [hl] at h
        exact congrArg Config.path (handle_err_ok_shape h).symm |>.symm
    | err e =>
      simp only [hf] at h
      exact congrArg Config.path (handle_err_ok_shape h).symm |>.symm
    | panics =>
      simp only [hf] at h
      exact Outcome.noConfusion h
  obtain rfl : cp = some p := hpath
  refine ⟨rfl, fun enc fs2 => ?_⟩
  simp only [Config.save]
  cases hf : for_file p with
  | ok c =>
    simp only []
    cases hs : ConfigManager.save enc c fs2 p cv with
    | ok fs3 => simp
    | error e =>
      obtain ⟨m, rfl⟩ := manager_save_err_shape hs
      simp
  | err e =>
    obtain ⟨m, rfl⟩ := for_file_err_shape hf
    simp
  | panics => simp

/-- C9 witness: a handle recovered from a failed load of the extensionless
path `cfg` carries that path as origin, and saving it does not fail with
`ConfigLoadError` carrying no message. -/
theorem load_origin_invariant_witness :
    ({ config := (default : MyConfig), path := some (asciiBytes "cfg") } :
        Config MyConfig).path = some (asciiBytes "cfg") ∧
    (Config.save myEnc
        ({ config := (default : MyConfig), path := some (asciiBytes "cfg") } :
          Config MyConfig) fsEmpty).2.1 ≠ .err (.ConfigLoadError none) := by
  obtain ⟨h1, h2⟩ := load_origin_invariant myDec
    (Config.configure.useDefaultOnError) (asciiBytes "cfg") fsEmpty
    { config := (default : MyConfig), path := some (asciiBytes "cfg") }
    (by decide)
  exact ⟨h1, h2 myEnc fsEmpty⟩
